import Mathlib

/-!
Verification development for the CANDY dispenser core (`src/Dispenser.cpp`).

The C++ class `Dispenser` keeps a vector of raw `Hopper*` pointers, a cached
`size` field and a `current_index` field.  The embedding below translates each
member function into a pure Lean function on an explicit `Dispenser` state.

Modelling conventions:
* a hopper pointer is identified by a natural number (`HopperHandle`): the
  code only ever compares pointers for identity and passes them around;
* C++ `int` arithmetic is modelled by `Int`; the C++ `%` operator is the
  truncated remainder `Int.tmod` (sign follows the dividend), wrapped as
  `cppMod`;
* every operation returns a pair of an `Except DispErr` result and the
  post-call state.  A C++ `throw` is `.error .emptyCollection`; the two kinds
  of undefined behaviour the code can reach are made explicit as
  `.error .divisionByZero` (the `% 0` in `removeHopper` on an empty
  collection) and `.error .undefinedBehavior` (out-of-range vector subscript,
  insertion or erasure through an invalid iterator);
* the servo calls `softServoWrite(channel, level)` performed by
  `openDispenser`/`closeDispenser` are collected as an output list of
  `(channel, level)` pairs, in call order.
-/

/-- Hopper pointers carry identity only in this code, so a handle is a number. -/
abbrev HopperHandle := Nat

/-- Observable outcomes of a `Dispenser` member call: the `out_of_range`
throw, and the two kinds of undefined behaviour reachable in the source. -/
inductive DispErr where
  | emptyCollection
  | divisionByZero
  | undefinedBehavior
deriving DecidableEq, Repr

/-- State of the C++ `Dispenser` object: the tracked index, the cached size
field, and the `hoppers` vector. -/
structure Dispenser where
  current_index : Int
  size : Int
  hoppers : List HopperHandle
deriving DecidableEq, Repr

namespace Dispenser

/-- The C++ `%` operator on `int`: truncated remainder. -/
def cppMod (a b : Int) : Int := Int.tmod a b

/-- `Dispenser::Dispenser()`: starts with `current_index = 0`, `size = 0`
and an empty vector. -/
def mkDispenser : Dispenser := { current_index := 0, size := 0, hoppers := [] }

/-- `Dispenser::getCurrentIndex()`. -/
def getCurrentIndex (d : Dispenser) : Int := d.current_index

/-- `Dispenser::getSize()`. -/
def getSize (d : Dispenser) : Int := d.size

/-- `std::vector` subscript `v[j]` for an `Int` index: defined when
`0 ≤ j < length`, undefined behaviour otherwise. -/
def vecGet (l : List HopperHandle) (j : Int) : Except DispErr HopperHandle :=
  if 0 ≤ j ∧ j < (l.length : Int) then .ok (l.getD j.toNat 0)
  else .error .undefinedBehavior

/-- `Dispenser::getHopper(int index)`: throws when `size == 0`, otherwise
returns `hoppers[index % size]`. -/
def getHopper (d : Dispenser) (index : Int) :
    (Except DispErr HopperHandle) × Dispenser :=
  if d.size = 0 then (.error .emptyCollection, d)
  else (vecGet d.hoppers (cppMod index d.size), d)

/-- `Dispenser::getHopper()`: throws when `size == 0`, otherwise delegates to
`getHopper(current_index)`. -/
def getHopperCur (d : Dispenser) : (Except DispErr HopperHandle) × Dispenser :=
  if d.size = 0 then (.error .emptyCollection, d)
  else getHopper d d.current_index

/-- `Dispenser::setCurrentIndex(int new_index)`: throws when `size == 0`,
otherwise stores and returns `new_index % size`. -/
def setCurrentIndex (d : Dispenser) (new_index : Int) :
    (Except DispErr Int) × Dispenser :=
  if d.size = 0 then (.error .emptyCollection, d)
  else
    let c := cppMod new_index d.size
    (.ok c, { d with current_index := c })

/-- `Dispenser::nextIndex()`: throws when `size == 0`, otherwise stores and
returns `(current_index + 1) % size`. -/
def nextIndex (d : Dispenser) : (Except DispErr Int) × Dispenser :=
  if d.size = 0 then (.error .emptyCollection, d)
  else
    let c := cppMod (d.current_index + 1) d.size
    (.ok c, { d with current_index := c })

/-- `Dispenser::openDispenser()`: throws when `size == 0`; at
`current_index == 4` writes level 60 to channels `0 .. size-1`, otherwise
writes level 60 to channel `current_index + 5`.  The result collects the
`softServoWrite` calls as `(channel, level)` pairs. -/
def openDispenser (d : Dispenser) :
    (Except DispErr (List (Int × Int))) × Dispenser :=
  if d.size = 0 then (.error .emptyCollection, d)
  else if d.current_index = 4 then
    (.ok ((List.range d.size.toNat).map fun i : Nat => ((i : Int), 60)), d)
  else
    (.ok [(d.current_index + 5, 60)], d)

/-- `Dispenser::closeDispenser()`: same structure as `openDispenser`, writing
level 0 instead of level 60. -/
def closeDispenser (d : Dispenser) :
    (Except DispErr (List (Int × Int))) × Dispenser :=
  if d.size = 0 then (.error .emptyCollection, d)
  else if d.current_index = 4 then
    (.ok ((List.range d.size.toNat).map fun i : Nat => ((i : Int), 0)), d)
  else
    (.ok [(d.current_index + 5, 0)], d)

/-- `Dispenser::addHopper(Hopper*, int)`: throws when `size == 0`.  When
`index == size` it pushes back and increments `size`; otherwise it first
increments `size`, computes `insert_index = index % size`, and inserts there
(undefined behaviour when the iterator `begin() + insert_index` is outside
`[begin(), end()]`).  Returns `index % size` with the incremented `size`. -/
def addHopperAt (d : Dispenser) (new_hopper : HopperHandle) (index : Int) :
    (Except DispErr Int) × Dispenser :=
  if d.size = 0 then (.error .emptyCollection, d)
  else if index = d.size then
    let d2 := { d with hoppers := d.hoppers ++ [new_hopper], size := d.size + 1 }
    (.ok (cppMod index d2.size), d2)
  else
    let d1 := { d with size := d.size + 1 }
    let idx := cppMod index d1.size
    if 0 ≤ idx ∧ idx ≤ (d1.hoppers.length : Int) then
      let d2 := { d1 with hoppers := d1.hoppers.insertIdx idx.toNat new_hopper }
      (.ok (cppMod index d2.size), d2)
    else (.error .undefinedBehavior, d1)

/-- `Dispenser::addHopper(Hopper*)`: delegates to the two-argument form with
`index = size`. -/
def addHopper (d : Dispenser) (new_hopper : HopperHandle) :
    (Except DispErr Int) × Dispenser :=
  addHopperAt d new_hopper d.size

/-- `Dispenser::removeHopper(int index)`: with no emptiness check, evaluates
`index % size` (division by zero when `size == 0`) and erases at that vector
position (undefined behaviour when the position is outside the vector).  The
`size` field is not touched by the source. -/
def removeHopperAt (d : Dispenser) (index : Int) :
    (Except DispErr Unit) × Dispenser :=
  if d.size = 0 then (.error .divisionByZero, d)
  else
    let j := cppMod index d.size
    if 0 ≤ j ∧ j < (d.hoppers.length : Int) then
      (.ok (), { d with hoppers := d.hoppers.eraseIdx j.toNat })
    else (.error .undefinedBehavior, d)

/-- Position of the first occurrence of a handle in the vector, or the vector
length when absent: `distance(begin(), std::find(begin(), end(), h))`. -/
def findPos (l : List HopperHandle) (h : HopperHandle) : Nat :=
  match l with
  | [] => 0
  | x :: xs => if x = h then 0 else findPos xs h + 1

/-- `Dispenser::removeHopper(Hopper*)`: locates the handle with `std::find`,
converts the iterator to a position with `distance`, and delegates to the
index form. -/
def removeHopper (d : Dispenser) (hopper : HopperHandle) :
    (Except DispErr Unit) × Dispenser :=
  removeHopperAt d ((findPos d.hoppers hopper : Nat) : Int)

/-- Intended representation invariant of the class: the cached `size` field
equals the length of the `hoppers` vector. -/
def WF (d : Dispenser) : Prop := d.size = (d.hoppers.length : Int)

instance (d : Dispenser) : Decidable (WF d) :=
  inferInstanceAs (Decidable (d.size = (d.hoppers.length : Int)))

end Dispenser

/-- C1: `removeHopper(int)` erases the element from the vector but never
decrements the `size` field, so on the one-hopper registry the vector becomes
empty while `getSize()` still returns 1 — `size()` does not decrease by 1. -/
theorem removeHopperAt_does_not_decrement_size :
    (Dispenser.removeHopperAt ⟨0, 1, [7]⟩ 0).1 = .ok () ∧
    (Dispenser.removeHopperAt ⟨0, 1, [7]⟩ 0).2.hoppers = [] ∧
    Dispenser.getSize (Dispenser.removeHopperAt ⟨0, 1, [7]⟩ 0).2 = 1 := by
  refine ⟨rfl, rfl, rfl⟩

/-- C2: the invariant `size = hoppers.length` holds on the one-hopper registry
but is destroyed by `removeHopper(0)`, which erases from the vector without
updating the cached `size` field. -/
theorem removeHopperAt_breaks_wf :
    Dispenser.WF ⟨0, 1, [7]⟩ ∧
    ¬ Dispenser.WF (Dispenser.removeHopperAt ⟨0, 1, [7]⟩ 0).2 := by
  exact ⟨by decide, by decide⟩

/-- C3 counterexample: on the empty registry the single-argument append form
`addHopper(h)` raises `EmptyCollection` (the `size == 0` guard in the
two-argument form fires before the append case is examined), so the append
form does not succeed on every registry. -/
theorem addHopper_empty_raises :
    (Dispenser.addHopper Dispenser.mkDispenser 7).1 = .error .emptyCollection ∧
    (Dispenser.addHopper Dispenser.mkDispenser 7).2 = Dispenser.mkDispenser := by
  exact ⟨rfl, rfl⟩

lemma Dispenser.size_zero_iff (d : Dispenser) (hwf : Dispenser.WF d) :
    d.size = 0 ↔ d.hoppers = [] := by
  have hlen : d.size = (d.hoppers.length : Int) := hwf
  rw [hlen]
  exact_mod_cast List.length_eq_zero

lemma Dispenser.vecGet_ne_empty (l : List HopperHandle) (j : Int) :
    Dispenser.vecGet l j ≠ .error .emptyCollection := by
  unfold Dispenser.vecGet
  split <;> simp

lemma Dispenser.addHopper_eq (d : Dispenser) (h : HopperHandle)
    (hz : d.size ≠ 0) (hpos : 0 ≤ d.size) :
    Dispenser.addHopper d h =
      (.ok d.size, ⟨d.current_index, d.size + 1, d.hoppers ++ [h]⟩) := by
  unfold Dispenser.addHopper Dispenser.addHopperAt
  rw [if_neg hz, if_pos rfl]
  have hmod : Dispenser.cppMod d.size (d.size + 1) = d.size :=
    Int.tmod_eq_of_lt hpos (by omega)
  simp [hmod]

/-- C3 amended: on a well-formed registry the append form `addHopper(h)`
succeeds exactly on non-empty registries: there it returns the old size,
grows `size` by 1 and puts `h` at position `size - 1`; on the empty registry
it raises `EmptyCollection` and leaves the state unchanged. -/
theorem addHopper_append_spec (d : Dispenser) (h : HopperHandle)
    (hwf : Dispenser.WF d) :
    (d.hoppers = [] →
      (Dispenser.addHopper d h).1 = .error .emptyCollection ∧
      (Dispenser.addHopper d h).2 = d) ∧
    (d.hoppers ≠ [] →
      (Dispenser.addHopper d h).1 = .ok d.size ∧
      Dispenser.getSize (Dispenser.addHopper d h).2 = Dispenser.getSize d + 1 ∧
      (Dispenser.getHopper (Dispenser.addHopper d h).2
          (Dispenser.getSize (Dispenser.addHopper d h).2 - 1)).1 = .ok h) := by
  have hlen : d.size = (d.hoppers.length : Int) := hwf
  constructor
  · intro hnil
    have hz : d.size = 0 := (Dispenser.size_zero_iff d hwf).mpr hnil
    unfold Dispenser.addHopper Dispenser.addHopperAt
    rw [if_pos hz]
    exact ⟨rfl, rfl⟩
  · intro hne
    have hz : d.size ≠ 0 := fun hc => hne ((Dispenser.size_zero_iff d hwf).mp hc)
    have hpos : 0 ≤ d.size := by rw [hlen]; exact_mod_cast Nat.zero_le _
    rw [Dispenser.addHopper_eq d h hz hpos]
    refine ⟨rfl, rfl, ?_⟩
    unfold Dispenser.getSize Dispenser.getHopper
    have hsz1 : d.size + 1 ≠ 0 := by omega
    rw [if_neg hsz1]
    have hmod : Dispenser.cppMod (d.size + 1 - 1) (d.size + 1) = d.size := by
      have : d.size + 1 - 1 = d.size := by omega
      rw [this]
      exact Int.tmod_eq_of_lt hpos (by omega)
    unfold Dispenser.vecGet
    rw [hmod]
    have hcond : 0 ≤ d.size ∧ d.size < (((d.hoppers ++ [h]).length : Nat) : Int) := by
      simp only [List.length_append, List.length_cons, List.length_nil]
      omega
    rw [if_pos hcond]
    have htn : d.size.toNat = d.hoppers.length := by omega
    rw [htn]
    simp

theorem addHopper_append_spec_witness :
    (Dispenser.addHopper ⟨0, 1, [5]⟩ 9).1 = .ok 1 :=
  ((addHopper_append_spec ⟨0, 1, [5]⟩ 9 (by decide)).2 (by decide)).1

/-- C4: for a well-formed registry, each index-dependent operation
(`getHopper(i)`, `getHopper()`, `setCurrentIndex`, `nextIndex`,
`openDispenser`, `closeDispenser`, and the insert-by-index `addHopper`)
raises `EmptyCollection` exactly when the registry holds zero hoppers. -/
theorem emptyCollection_iff_no_hoppers (d : Dispenser) (i : Int)
    (h : HopperHandle) (hwf : Dispenser.WF d) :
    ((Dispenser.getHopper d i).1 = .error .emptyCollection ↔ d.hoppers = []) ∧
    ((Dispenser.getHopperCur d).1 = .error .emptyCollection ↔ d.hoppers = []) ∧
    ((Dispenser.setCurrentIndex d i).1 = .error .emptyCollection ↔ d.hoppers = []) ∧
    ((Dispenser.nextIndex d).1 = .error .emptyCollection ↔ d.hoppers = []) ∧
    ((Dispenser.openDispenser d).1 = .error .emptyCollection ↔ d.hoppers = []) ∧
    ((Dispenser.closeDispenser d).1 = .error .emptyCollection ↔ d.hoppers = []) ∧
    ((Dispenser.addHopperAt d h i).1 = .error .emptyCollection ↔ d.hoppers = []) := by
  by_cases hz : d.size = 0
  · have hnil : d.hoppers = [] := (Dispenser.size_zero_iff d hwf).mp hz
    unfold Dispenser.getHopper Dispenser.getHopperCur Dispenser.setCurrentIndex
      Dispenser.nextIndex Dispenser.openDispenser Dispenser.closeDispenser
      Dispenser.addHopperAt
    simp [hz, hnil]
  · have hne : d.hoppers ≠ [] := fun hc => hz ((Dispenser.size_zero_iff d hwf).mpr hc)
    refine ⟨?_, ?_, ?_, ?_, ?_, ?_, ?_⟩
    · unfold Dispenser.getHopper
      rw [if_neg hz]
      simpa [hne] using Dispenser.vecGet_ne_empty d.hoppers (Dispenser.cppMod i d.size)
    · unfold Dispenser.getHopperCur Dispenser.getHopper
      rw [if_neg hz, if_neg hz]
      simpa [hne] using
        Dispenser.vecGet_ne_empty d.hoppers (Dispenser.cppMod d.current_index d.size)
    · unfold Dispenser.setCurrentIndex
      rw [if_neg hz]
      simp [hne]
    · unfold Dispenser.nextIndex
      rw [if_neg hz]
      simp [hne]
    · unfold Dispenser.openDispenser
      rw [if_neg hz]
      split <;> simp [hne]
    · unfold Dispenser.closeDispenser
      rw [if_neg hz]
      split <;> simp [hne]
    · unfold Dispenser.addHopperAt
      rw [if_neg hz]
      split
      · simp [hne]
      · dsimp only
        split <;> simp [hne]

theorem emptyCollection_iff_no_hoppers_witness :
    (Dispenser.getHopper Dispenser.mkDispenser 0).1 = .error .emptyCollection :=
  ((emptyCollection_iff_no_hoppers Dispenser.mkDispenser 0 0 (by decide)).1).mpr rfl

/-- C8: every operation that raises `EmptyCollection` leaves the state
exactly as it was: the observers never change the state at all, and each
mutator returns the unchanged state whenever its result is the
`EmptyCollection` error (the `size == 0` guard fires before any field is
written). -/
theorem emptyCollection_preserves_state (d : Dispenser) (i : Int)
    (h : HopperHandle) :
    ((Dispenser.getHopper d i).2 = d) ∧
    ((Dispenser.getHopperCur d).2 = d) ∧
    ((Dispenser.openDispenser d).2 = d) ∧
    ((Dispenser.closeDispenser d).2 = d) ∧
    ((Dispenser.setCurrentIndex d i).1 = .error .emptyCollection →
      (Dispenser.setCurrentIndex d i).2 = d) ∧
    ((Dispenser.nextIndex d).1 = .error .emptyCollection →
      (Dispenser.nextIndex d).2 = d) ∧
    ((Dispenser.addHopperAt d h i).1 = .error .emptyCollection →
      (Dispenser.addHopperAt d h i).2 = d) ∧
    ((Dispenser.addHopper d h).1 = .error .emptyCollection →
      (Dispenser.addHopper d h).2 = d) ∧
    ((Dispenser.removeHopperAt d i).1 = .error .emptyCollection →
      (Dispenser.removeHopperAt d i).2 = d) ∧
    ((Dispenser.removeHopper d h).1 = .error .emptyCollection →
      (Dispenser.removeHopper d h).2 = d) := by
  refine ⟨?_, ?_, ?_, ?_, ?_, ?_, ?_, ?_, ?_, ?_⟩
  · unfold Dispenser.getHopper
    split <;> rfl
  · unfold Dispenser.getHopperCur Dispenser.getHopper
    split <;> rfl
  · unfold Dispenser.openDispenser
    split
    · rfl
    · split <;> rfl
  · unfold Dispenser.closeDispenser
    split
    · rfl
    · split <;> rfl
  · unfold Dispenser.setCurrentIndex
    split
    · intro; rfl
    · simp
  · unfold Dispenser.nextIndex
    split
    · intro; rfl
    · simp
  · unfold Dispenser.addHopperAt
    split
    · intro; rfl
    · split
      · simp
      · dsimp only
        split <;> simp
  · unfold Dispenser.addHopper Dispenser.addHopperAt
    split
    · intro; rfl
    · split
      · simp
      · dsimp only
        split <;> simp
  · unfold Dispenser.removeHopperAt
    split
    · simp
    · dsimp only
      split <;> simp
  · unfold Dispenser.removeHopper Dispenser.removeHopperAt
    split
    · simp
    · dsimp only
      split <;> simp

theorem emptyCollection_preserves_state_witness :
    (Dispenser.setCurrentIndex Dispenser.mkDispenser 5).2 = Dispenser.mkDispenser :=
  (emptyCollection_preserves_state Dispenser.mkDispenser 5 0).2.2.2.2.1 rfl

/-- C5: the division-by-zero branch of `removeHopper(int)` (the `% size` with
no emptiness guard) is reached exactly when the cached size is zero. -/
theorem removeHopperAt_divzero_iff (d : Dispenser) (i : Int) :
    (Dispenser.removeHopperAt d i).1 = .error .divisionByZero ↔ d.size = 0 := by
  unfold Dispenser.removeHopperAt
  by_cases h : d.size = 0
  · simp [h]
  · simp only [h, if_false]
    split <;> simp [h]

/-- C6 counterexample: on a two-hopper registry, `setCurrentIndex(-1)` stores
and returns the C++ truncated remainder `-1 % 2 = -1`, which is not in
`[0, size)`. -/
theorem setCurrentIndex_negative_not_normalized :
    (Dispenser.setCurrentIndex ⟨0, 2, [1, 2]⟩ (-1)).1 = .ok (-1) ∧
    Dispenser.getCurrentIndex (Dispenser.setCurrentIndex ⟨0, 2, [1, 2]⟩ (-1)).2 = -1 ∧
    ¬ (0 ≤ (-1 : Int)) := by
  exact ⟨rfl, rfl, by decide⟩

lemma Dispenser.size_pos (d : Dispenser) (hwf : Dispenser.WF d)
    (hne : d.hoppers ≠ []) : 0 < d.size := by
  have hlen : d.size = (d.hoppers.length : Int) := hwf
  have hl : d.hoppers.length ≠ 0 := fun hc => hne (List.length_eq_zero.mp hc)
  omega

/-- C6 amended: on a well-formed non-empty registry, `setCurrentIndex(i)`
stores and returns the C++ truncated remainder `i % size`; when `i` is
nonnegative that value is the normalized index in `[0, size)` (for negative
`i` the truncated remainder can itself be negative). -/
theorem setCurrentIndex_spec (d : Dispenser) (i : Int)
    (hwf : Dispenser.WF d) (hne : d.hoppers ≠ []) :
    (Dispenser.setCurrentIndex d i).1 = .ok (Dispenser.cppMod i d.size) ∧
    Dispenser.getCurrentIndex (Dispenser.setCurrentIndex d i).2 =
      Dispenser.cppMod i d.size ∧
    (0 ≤ i → 0 ≤ Dispenser.cppMod i d.size ∧ Dispenser.cppMod i d.size < d.size) := by
  have hpos : 0 < d.size := Dispenser.size_pos d hwf hne
  have hz : d.size ≠ 0 := by omega
  unfold Dispenser.setCurrentIndex
  rw [if_neg hz]
  refine ⟨rfl, rfl, fun hi => ⟨?_, ?_⟩⟩
  · exact Int.tmod_nonneg d.size hi
  · exact Int.tmod_lt_of_pos i hpos

theorem setCurrentIndex_spec_witness :
    (Dispenser.setCurrentIndex ⟨0, 3, [1, 2, 3]⟩ 5).1 =
      .ok (Dispenser.cppMod 5 3) :=
  (setCurrentIndex_spec ⟨0, 3, [1, 2, 3]⟩ 5 (by decide) (by decide)).1

lemma Dispenser.mem_rangeSignals (n lvl c : Int) (hn : 0 ≤ n) :
    ((c, lvl) ∈ (List.range n.toNat).map (fun i : Nat => ((i : Int), lvl))) ↔
      (0 ≤ c ∧ c < n) := by
  constructor
  · intro hmem
    obtain ⟨i, hir, heq⟩ := List.mem_map.mp hmem
    have hi : i < n.toNat := List.mem_range.mp hir
    have hic : (i : Int) = c := congrArg Prod.fst heq
    omega
  · intro hc
    refine List.mem_map.mpr ⟨c.toNat, List.mem_range.mpr (by omega), ?_⟩
    rw [Int.toNat_of_nonneg hc.1]

/-- C7: on a well-formed non-empty registry, when the current index is the
all-positions sentinel 4, `openDispenser` issues a level-60 signal for
exactly the channels `0 .. size-1` and `closeDispenser` a level-0 signal for
the same channels; at any other current index `p` each issues exactly one
signal, on channel `p + 5`, with level 60 respectively 0. -/
theorem open_close_signals (d : Dispenser) (hwf : Dispenser.WF d)
    (hne : d.hoppers ≠ []) :
    (d.current_index = 4 →
      ∃ osigs csigs : List (Int × Int),
        (Dispenser.openDispenser d).1 = .ok osigs ∧
        (Dispenser.closeDispenser d).1 = .ok csigs ∧
        (∀ c : Int, ((c, (60 : Int)) ∈ osigs) ↔ (0 ≤ c ∧ c < d.size)) ∧
        (∀ p ∈ osigs, Prod.snd p = (60 : Int)) ∧
        (∀ c : Int, ((c, (0 : Int)) ∈ csigs) ↔ (0 ≤ c ∧ c < d.size)) ∧
        (∀ p ∈ csigs, Prod.snd p = (0 : Int))) ∧
    (d.current_index ≠ 4 →
      (Dispenser.openDispenser d).1 = .ok [(d.current_index + 5, 60)] ∧
      (Dispenser.closeDispenser d).1 = .ok [(d.current_index + 5, 0)]) := by
  have hpos : 0 < d.size := Dispenser.size_pos d hwf hne
  have hz : d.size ≠ 0 := by omega
  constructor
  · intro h4
    refine ⟨(List.range d.size.toNat).map (fun i : Nat => ((i : Int), 60)),
            (List.range d.size.toNat).map (fun i : Nat => ((i : Int), 0)),
            ?_, ?_, ?_, ?_, ?_, ?_⟩
    · unfold Dispenser.openDispenser
      rw [if_neg hz, if_pos h4]
    · unfold Dispenser.closeDispenser
      rw [if_neg hz, if_pos h4]
    · intro c
      exact Dispenser.mem_rangeSignals d.size 60 c (by omega)
    · intro p hp
      simp only [List.mem_map] at hp
      obtain ⟨i, _, rfl⟩ := hp
      rfl
    · intro c
      exact Dispenser.mem_rangeSignals d.size 0 c (by omega)
    · intro p hp
      simp only [List.mem_map] at hp
      obtain ⟨i, _, rfl⟩ := hp
      rfl
  · intro h4
    constructor
    · unfold Dispenser.openDispenser
      rw [if_neg hz, if_neg h4]
    · unfold Dispenser.closeDispenser
      rw [if_neg hz, if_neg h4]

theorem open_close_signals_witness :
    (Dispenser.openDispenser ⟨2, 3, [1, 2, 3]⟩).1 = .ok [(7, 60)] :=
  ((open_close_signals ⟨2, 3, [1, 2, 3]⟩ (by decide) (by decide)).2 (by decide)).1

/-- C9 counterexample: on the registry `[1, 2, 3]` with `i = 1` and `k = -1`,
`getHopper 1` returns the handle `2` while `getHopper (1 + (-1) * 3) =
getHopper (-2)` computes the negative subscript `-2 % 3 = -2` and is
undefined behaviour, so the two calls do not agree for every integer `k`. -/
theorem getHopper_negative_wrap_fails :
    (Dispenser.getHopper ⟨0, 3, [1, 2, 3]⟩ 1).1 = .ok 2 ∧
    (Dispenser.getHopper ⟨0, 3, [1, 2, 3]⟩ (1 + (-1) * 3)).1 =
      .error .undefinedBehavior := by
  exact ⟨rfl, rfl⟩

/-- C9 amended: on a well-formed non-empty registry, for every nonnegative
index `i` and every natural `k`, `getHopper (i + k * size)` agrees with
`getHopper i` (wrap-around holds as long as both requested indices are
nonnegative; a negative requested index is undefined behaviour instead). -/
theorem getHopper_mod_wrap (d : Dispenser) (i : Int) (k : Nat)
    (hwf : Dispenser.WF d) (hne : d.hoppers ≠ []) (hi : 0 ≤ i) :
    Dispenser.getHopper d (i + (k : Int) * d.size) = Dispenser.getHopper d i := by
  have hpos : 0 < d.size := Dispenser.size_pos d hwf hne
  have hz : d.size ≠ 0 := by omega
  have hks : 0 ≤ (k : Int) * d.size :=
    mul_nonneg (Int.natCast_nonneg k) (le_of_lt hpos)
  have hmod : Dispenser.cppMod (i + (k : Int) * d.size) d.size =
      Dispenser.cppMod i d.size := by
    unfold Dispenser.cppMod
    rw [Int.tmod_eq_emod (by omega) (le_of_lt hpos),
      Int.tmod_eq_emod hi (le_of_lt hpos)]
    exact Int.add_mul_emod_self
  unfold Dispenser.getHopper
  rw [if_neg hz, if_neg hz, hmod]

theorem getHopper_mod_wrap_witness :
    Dispenser.getHopper ⟨0, 3, [1, 2, 3]⟩ (1 + (2 : Nat) * 3) =
      Dispenser.getHopper ⟨0, 3, [1, 2, 3]⟩ 1 :=
  getHopper_mod_wrap ⟨0, 3, [1, 2, 3]⟩ 1 2 (by decide) (by decide) (by decide)

lemma Dispenser.findPos_of_not_mem (l : List HopperHandle) (h : HopperHandle)
    (hnm : h ∉ l) : Dispenser.findPos l h = l.length := by
  induction l with
  | nil => rfl
  | cons x xs ih =>
    have hx : x ≠ h := fun hc => hnm (by simp [hc])
    have hxs : h ∉ xs := fun hc => hnm (List.mem_cons_of_mem _ hc)
    unfold Dispenser.findPos
    rw [if_neg hx, ih hxs]
    rfl

/-- C10: on a well-formed non-empty registry, removing by a handle that does
not occur in the sequence erases the element at index 0: `std::find` returns
the end iterator, whose distance from `begin` is the length (= size),
`size % size` is 0, and the head of the sequence is erased. -/
theorem removeHopper_absent_erases_head (d : Dispenser) (h : HopperHandle)
    (hwf : Dispenser.WF d) (hne : d.hoppers ≠ []) (habs : h ∉ d.hoppers) :
    (Dispenser.removeHopper d h).1 = .ok () ∧
    (Dispenser.removeHopper d h).2 = { d with hoppers := d.hoppers.tail } := by
  have hlen : d.size = (d.hoppers.length : Int) := hwf
  have hpos : 0 < d.size := Dispenser.size_pos d hwf hne
  have hz : d.size ≠ 0 := by omega
  unfold Dispenser.removeHopper
  rw [Dispenser.findPos_of_not_mem d.hoppers h habs]
  unfold Dispenser.removeHopperAt
  rw [if_neg hz]
  dsimp only
  have hmod : Dispenser.cppMod (d.hoppers.length : Int) d.size = 0 := by
    unfold Dispenser.cppMod
    rw [← hlen]
    exact Int.tmod_self
  rw [hmod]
  have hcond : (0 : Int) ≤ 0 ∧ (0 : Int) < (d.hoppers.length : Int) := by
    constructor
    · exact le_refl 0
    · omega
  rw [if_pos hcond]
  constructor
  · rfl
  · simp [List.eraseIdx_zero]

theorem removeHopper_absent_erases_head_witness :
    (Dispenser.removeHopper ⟨0, 2, [1, 2]⟩ 5).2 = ⟨0, 2, [2]⟩ :=
  (removeHopper_absent_erases_head ⟨0, 2, [1, 2]⟩ 5
    (by decide) (by decide) (by decide)).2
